import Mathlib

/-!
Verification of the pike caching reverse proxy core: a shallow embedding of
the request-status coordinator, the response record codec, the dispatcher
store procedure, the director matcher and the expiry sweeper, with theorems
checking the natural-language specification against the code.

Conventions of the embedding:
* machine integers become `Nat` with explicit wraparound (`u32sub` models Go
  uint32 subtraction);
* byte slices become `List Nat`;
* Go strings become `String`; substring and prefix tests are implemented
  byte-for-byte after Go's `strings.Contains` / `strings.HasPrefix`;
* channels become numeric identifiers drawn from a supply carried in the
  client state; channel traffic is recorded as an explicit event list;
* external library collaborators (gzip / brotli codecs, the JSON header
  codec, the regexp engine) are parameters of the definitions that call
  them, since their code is not part of this repository.
-/

/-- Bytes models a Go byte slice as a list of byte values. -/
abbrev Bytes := List Nat

/-- Pass request status (iota + 1 in the source). -/
def Pass : Nat := 1

/-- Fetching request status. -/
def Fetching : Nat := 2

/-- Waiting request status. -/
def Waiting : Nat := 3

/-- HitForPass request status. -/
def HitForPass : Nat := 4

/-- Cacheable request status. -/
def Cacheable : Nat := 5

/-- CompressMinLength is the minimum body length that triggers compression. -/
def CompressMinLength : Nat := 1024

/-- u32sub models Go uint32 subtraction `a - b` with wraparound. -/
def u32sub (a b : Nat) : Nat :=
  ((a % 2 ^ 32) + 2 ^ 32 - (b % 2 ^ 32)) % 2 ^ 32

/-- RequestStatus mirrors the source structure: creation time, ttl,
status code and the list of waiter channels (channel identifiers). -/
structure RequestStatus where
  createdAt : Nat
  ttl : Nat
  status : Nat
  waitingChans : List Nat
  deriving DecidableEq, Repr

/-- lookupRs looks a key up in the status map (Go map read). -/
def lookupRs : List (String × RequestStatus) → String → Option RequestStatus
  | [], _ => none
  | (k, v) :: t, key => if k = key then some v else lookupRs t key

/-- setRs writes a key in the status map (Go map write), replacing the
existing entry or appending a new one. -/
def setRs : List (String × RequestStatus) → String → RequestStatus →
    List (String × RequestStatus)
  | [], key, v => [(key, v)]
  | (k, w) :: t, key, v =>
    if k = key then (key, v) :: t else (k, w) :: setRs t key v

/-- Client carries the in-memory status map, a supply of fresh channel
identifiers, and the persistent store modelled as a byte map. -/
structure Client where
  rsMap : List (String × RequestStatus)
  nextCh : Nat
  db : String → Option Bytes

/-- isExpired mirrors the source expiry test: ttl not zero and
`now - createdAt > ttl` in uint32 arithmetic. -/
def isExpired (rs : RequestStatus) (now : Nat) : Bool :=
  rs.ttl != 0 && decide (rs.ttl % 2 ^ 32 < u32sub now rs.createdAt)

/-- lockAndUpdateRsMap mirrors the exclusive-lock section of the
coordinator: re-check the entry, replace it with a fresh Fetching entry on
miss or expiry, append a waiter channel when the entry is already
Fetching, and otherwise return the stored status. -/
def lockAndUpdateRsMap (c : Client) (k : String) (now : Nat) :
    Nat × Option Nat × Client :=
  match lookupRs c.rsMap k with
  | none =>
    (Fetching, none,
      { c with rsMap := setRs c.rsMap k ⟨now, 0, Fetching, []⟩ })
  | some rs =>
    if isExpired rs now then
      (Fetching, none,
        { c with rsMap := setRs c.rsMap k ⟨now, 0, Fetching, []⟩ })
    else if rs.status == Fetching then
      (Waiting, some c.nextCh,
        { c with
            rsMap := setRs c.rsMap k
              { rs with waitingChans := rs.waitingChans ++ [c.nextCh] },
            nextCh := c.nextCh + 1 })
    else
      (rs.status, none, c)

/-- GetRequestStatus mirrors the source: fast read, falling to
lockAndUpdateRsMap on miss, expiry, or a Fetching entry. -/
def Client.GetRequestStatus (c : Client) (k : String) (now : Nat) :
    Nat × Option Nat × Client :=
  match lookupRs c.rsMap k with
  | none => lockAndUpdateRsMap c k now
  | some rs =>
    if isExpired rs now then lockAndUpdateRsMap c k now
    else if rs.status == Fetching then lockAndUpdateRsMap c k now
    else (rs.status, none, c)

/-- ChanEvent records channel traffic performed by an operation: a value
sent on a channel, or a channel being closed. -/
inductive ChanEvent where
  | send (ch : Nat) (v : Nat)
  | close (ch : Nat)
  deriving DecidableEq, Repr

/-- UpdateRequestStatus mirrors the source: no-op when the entry is gone;
otherwise store the new status and ttl, send the new status to every
waiter channel in order, close each channel, and clear the waiter list. -/
def Client.UpdateRequestStatus (c : Client) (k : String) (status : Nat)
    (ttl : Nat) : Client × List ChanEvent :=
  match lookupRs c.rsMap k with
  | none => (c, [])
  | some rs =>
    ({ c with
        rsMap := setRs c.rsMap k
          { rs with status := status, ttl := ttl, waitingChans := [] } },
      rs.waitingChans.flatMap fun ch => [ChanEvent.send ch status, ChanEvent.close ch])

/-- hitForPassStatus is a top-level alias for the HitForPass status code,
readable from inside the Client namespace. -/
def hitForPassStatus : Nat := HitForPass

/-- cacheableStatus is a top-level alias for the Cacheable status code. -/
def cacheableStatus : Nat := Cacheable

/-- HitForPass wrapper from the source. -/
def Client.HitForPass (c : Client) (k : String) (ttl : Nat) :
    Client × List ChanEvent :=
  c.UpdateRequestStatus k hitForPassStatus ttl

/-- Cacheable wrapper from the source. -/
def Client.Cacheable (c : Client) (k : String) (ttl : Nat) :
    Client × List ChanEvent :=
  c.UpdateRequestStatus k cacheableStatus ttl

/-- Codec bundles the external gzip / brotli library functions used by the
repository (wrapped by util.Gzip, util.Gunzip, util.BrotliEncode and
util.BrotliDecode); they are parameters of the embedding because their
implementation is an external collaborator, not repository code. -/
structure Codec where
  gzipEnc : Bytes → Int → Except Unit Bytes
  gunzip : Bytes → Except Unit Bytes
  brEncode : Bytes → Int → Except Unit Bytes
  brDecode : Bytes → Except Unit Bytes

/-- Response mirrors the persisted response record of the source. -/
structure Response where
  CreatedAt : Nat
  StatusCode : Nat
  TTL : Nat
  Header : List (String × List String)
  Body : Bytes
  GzipBody : Bytes
  BrBody : Bytes
  CompressLevel : Int
  CompressMinLength : Int
  deriving DecidableEq, Repr

/-- listHasPrefix s p checks that p is a prefix of s, byte for byte,
after Go strings.HasPrefix. -/
def listHasPrefix : List Char → List Char → Bool
  | _, [] => true
  | [], _ :: _ => false
  | a :: s, b :: p => a == b && listHasPrefix s p

/-- listContains s sub checks that sub occurs contiguously inside s,
after Go strings.Contains. -/
def listContains : List Char → List Char → Bool
  | [], sub => sub.isEmpty
  | a :: t, sub => listHasPrefix (a :: t) sub || listContains t sub

/-- goContains models Go strings.Contains on strings. -/
def goContains (s sub : String) : Bool :=
  listContains s.toList sub.toList

/-- goHasPrefix models Go strings.HasPrefix on strings. -/
def goHasPrefix (s pre : String) : Bool :=
  listHasPrefix s.toList pre.toList

/-- getRawBody mirrors the source: return the first non-empty buffer among
body, gzipBody (gunzipped) and brBody (brotli-decoded), failing with
ContentNotFound when all three are empty. -/
def getRawBody (cd : Codec) (r : Response) : Except Unit Bytes :=
  if r.Body.length != 0 then .ok r.Body
  else if r.GzipBody.length != 0 then cd.gunzip r.GzipBody
  else if r.BrBody.length != 0 then cd.brDecode r.BrBody
  else .error ()

/-- effCompressMinLength mirrors the default applied in GetBody: a zero
compressMinLength means the package default 1024. -/
def effCompressMinLength (r : Response) : Int :=
  if r.CompressMinLength == 0 then (CompressMinLength : Int)
  else r.CompressMinLength

/-- getBodyTail mirrors the code after the encoding loop of GetBody: when
no encoding matched and only a gzip buffer exists, return its decoded
bytes (empty on decode failure, the error being discarded) with empty
encoding; otherwise return the raw body. -/
def getBodyTail (cd : Codec) (r : Response) : Bytes × String :=
  if r.Body.length == 0 && r.GzipBody.length != 0 then
    ((cd.gunzip r.GzipBody).toOption.getD [], "")
  else (r.Body, "")

/-- getBodyGzipStep mirrors the gzip iteration of GetBody's candidate
loop: when gzip is accepted, return the pre-encoded buffer if non-empty,
else gzip-encode the raw Body field (note: the Body field, not
getRawBody), falling to the tail on encode error or when gzip is not
accepted. -/
def getBodyGzipStep (cd : Codec) (r : Response) (acceptEncoding : String) :
    Bytes × String :=
  if goContains acceptEncoding "gzip" then
    if r.GzipBody.length != 0 then (r.GzipBody, "gzip")
    else
      match cd.gzipEnc r.Body r.CompressLevel with
      | .ok g => (g, "gzip")
      | .error _ => getBodyTail cd r
  else getBodyTail cd r

/-- getBodyBrStep mirrors the brotli iteration of GetBody's candidate
loop: when br is accepted, return the pre-encoded buffer if non-empty,
else brotli-encode getRawBody, falling to the gzip candidate on any
error or when br is not accepted. -/
def getBodyBrStep (cd : Codec) (r : Response) (acceptEncoding : String) :
    Bytes × String :=
  if goContains acceptEncoding "br" then
    if r.BrBody.length != 0 then (r.BrBody, "br")
    else
      match getRawBody cd r with
      | .error _ => getBodyGzipStep cd r acceptEncoding
      | .ok raw =>
        match cd.brEncode raw r.CompressLevel with
        | .ok b => (b, "br")
        | .error _ => getBodyGzipStep cd r acceptEncoding
  else getBodyGzipStep cd r acceptEncoding

/-- GetBody mirrors the source: 204 responses yield empty body and empty
encoding; a non-empty raw body below the compression threshold is
returned raw; otherwise the br and gzip candidates are tried in order. -/
def GetBody (cd : Codec) (r : Response) (acceptEncoding : String) :
    Bytes × String :=
  if r.StatusCode == 204 then ([], "")
  else if r.Body.length != 0 &&
      decide ((r.Body.length : Int) < effCompressMinLength r) then
    (r.Body, "")
  else getBodyBrStep cd r acceptEncoding

/-- uint16ToBytes mirrors the source little-endian uint16 encoding. -/
def uint16ToBytes (v : Nat) : Bytes :=
  [v % 256, v / 256 % 256]

/-- bytesToUint16 mirrors the source little-endian uint16 decoding. -/
def bytesToUint16 (b : Bytes) : Nat :=
  b.getD 0 0 + 256 * b.getD 1 0

/-- uint32ToBytes mirrors the source little-endian uint32 encoding. -/
def uint32ToBytes (v : Nat) : Bytes :=
  [v % 256, v / 256 % 256, v / 65536 % 256, v / 16777216 % 256]

/-- bytesToUint32 mirrors the source little-endian uint32 decoding. -/
def bytesToUint32 (b : Bytes) : Nat :=
  b.getD 0 0 + 256 * b.getD 1 0 + 65536 * b.getD 2 0 + 16777216 * b.getD 3 0

/-- JsonCodec bundles the external JSON library used for the header
mapping of a persisted response (jsoniter in the source); a parameter of
the embedding because the library is not repository code. -/
structure JsonCodec where
  marshal : List (String × List String) → Bytes
  unmarshal : Bytes → Except Unit (List (String × List String))

/-- encodeResponse is the serialization performed by SaveResponse:
little-endian fixed header of createdAt (4 bytes, now when zero),
statusCode (2), ttl (2) and the four segment lengths, followed by the
header JSON, body, gzipBody and brBody segments. -/
def encodeResponse (jc : JsonCodec) (now : Nat) (r : Response) : Bytes :=
  let createdAt := if r.CreatedAt == 0 then now else r.CreatedAt
  let header := jc.marshal r.Header
  uint32ToBytes createdAt ++ (uint16ToBytes r.StatusCode ++
    (uint16ToBytes r.TTL ++ (uint32ToBytes header.length ++
    (uint32ToBytes r.Body.length ++ (uint32ToBytes r.GzipBody.length ++
    (uint32ToBytes r.BrBody.length ++ (header ++ (r.Body ++
    (r.GzipBody ++ r.BrBody)))))))))

/-- SaveResponse mirrors the source: serialize the record and put it under
the key in the store. -/
def Client.SaveResponse (c : Client) (jc : JsonCodec) (key : String)
    (now : Nat) (resp : Response) : Client :=
  { c with db := fun k =>
      if k == key then some (encodeResponse jc now resp) else c.db k }

/-- sliceD models Go slicing data with an offset and a length. Go panics
when the bounds exceed the buffer; the model is only ever applied to
well-formed buffers, where drop and take agree with Go. -/
def sliceD (data : Bytes) (off len : Nat) : Bytes :=
  (data.drop off).take len

/-- decodeResponseData is the parse performed by GetResponse on a
non-empty stored buffer. -/
def decodeResponseData (jc : JsonCodec) (data : Bytes) :
    Except Unit Response :=
  let createdAt := bytesToUint32 (sliceD data 0 4)
  let statusCode := bytesToUint16 (sliceD data 4 2)
  let ttl := bytesToUint16 (sliceD data 6 2)
  let headerLength := bytesToUint32 (sliceD data 8 4)
  let bodyLength := bytesToUint32 (sliceD data 12 4)
  let gzipLength := bytesToUint32 (sliceD data 16 4)
  let brLength := bytesToUint32 (sliceD data 20 4)
  match jc.unmarshal (sliceD data 24 headerLength) with
  | .error e => .error e
  | .ok header =>
    .ok { CreatedAt := createdAt, StatusCode := statusCode, TTL := ttl,
          Header := header,
          Body := sliceD data (24 + headerLength) bodyLength,
          GzipBody := sliceD data (24 + headerLength + bodyLength) gzipLength,
          BrBody :=
            sliceD data (24 + headerLength + bodyLength + gzipLength) brLength,
          CompressLevel := 0, CompressMinLength := 0 }

/-- GetResponse mirrors the source: a missing, nil or zero-length stored
value yields a nil response with nil error; otherwise the buffer is
parsed. -/
def Client.GetResponse (c : Client) (jc : JsonCodec) (key : String) :
    Except Unit (Option Response) :=
  match c.db key with
  | none => .ok none
  | some data =>
    if data.length == 0 then .ok none
    else
      match decodeResponseData jc data with
      | .error e => .error e
      | .ok r => .ok (some r)

/-- jc0 is a concrete JSON codec instance used by witnesses. -/
def jc0 : JsonCodec :=
  ⟨fun _ => [7], fun _ => .ok [("A", ["b"])]⟩

/-- r4 is a concrete well-formed response used by the round-trip witness. -/
def r4 : Response :=
  { CreatedAt := 100, StatusCode := 200, TTL := 30,
    Header := [("A", ["b"])], Body := [10], GzipBody := [11, 12],
    BrBody := [13], CompressLevel := 2, CompressMinLength := 5 }

/-- toyCodec is a concrete invertible codec instance used by witnesses and
counterexamples: a gzip stream is the payload tagged with 0, a brotli
stream the payload tagged with 1. -/
def toyCodec : Codec :=
  { gzipEnc := fun b _ => .ok (0 :: b),
    gunzip := fun b =>
      match b with
      | 0 :: t => .ok t
      | _ => .error (),
    brEncode := fun b _ => .ok (1 :: b),
    brDecode := fun b =>
      match b with
      | 1 :: t => .ok t
      | _ => .error () }

/-- r3 is a record whose only populated buffer is brBody. -/
def r3 : Response :=
  { CreatedAt := 1, StatusCode := 200, TTL := 10, Header := [],
    Body := [], GzipBody := [], BrBody := [1, 5],
    CompressLevel := 0, CompressMinLength := 0 }

/-- rGz is a record with only a pre-encoded gzip buffer. -/
def rGz : Response :=
  { CreatedAt := 1, StatusCode := 200, TTL := 5, Header := [],
    Body := [], GzipBody := [0, 9], BrBody := [],
    CompressLevel := 0, CompressMinLength := 0 }

/-- SaveEffect records the observable actions of the dispatcher store
procedure: a store put (with the outcome of the put recorded), and the two
status-table transitions. -/
inductive SaveEffect where
  | put (key : String) (data : Bytes) (ok : Bool)
  | cacheable (key : String) (ttl : Nat)
  | hitForPass (key : String) (ttl : Nat)
  deriving DecidableEq, Repr

/-- HitForPassTTL. Modelled from the spec: the middleware package constant
holding the default hit-for-pass TTL (300 seconds) is declared in a
middleware file that is not present under src; dispatcher.go only
references it. -/
def HitForPassTTL : Nat := 300

/-- doSave mirrors the doSave closure of the dispatcher: persist the
record — the put error is discarded, putOk merely records the outcome —
then mark the key Cacheable with the record's TTL. -/
def doSave (jc : JsonCodec) (now : Nat) (putOk : Bool) (identity : String)
    (r : Response) : Response × List SaveEffect :=
  (r, [SaveEffect.put identity (encodeResponse jc now r) putOk,
       SaveEffect.cacheable identity r.TTL])

/-- saveCompress mirrors the compression block of the dispatcher save: add
a gzip buffer (dropping the raw body) when gzip encoding of the raw bytes
succeeds non-empty, then add a brotli buffer when absent (empty on encode
error, the error being discarded). -/
def saveCompress (cd : Codec) (resp : Response) (body : Bytes) : Response :=
  let level := resp.CompressLevel
  let resp1 :=
    if resp.GzipBody.length == 0 then
      let g :=
        match cd.gzipEnc body level with
        | .ok g => g
        | .error _ => []
      if g.length != 0 then { resp with GzipBody := g, Body := [] }
      else resp
    else resp
  if resp1.BrBody.length == 0 then
    { resp1 with
        BrBody :=
          match cd.brEncode body level with
          | .ok b => b
          | .error _ => [] }
  else resp1

/-- saveBody mirrors the dispatcher save once the raw body bytes have been
determined: an empty body switches the key to hit-for-pass with the
default TTL; a body below the compression threshold is persisted as-is;
otherwise missing compressed buffers are produced and the record is
persisted. -/
def saveBody (jc : JsonCodec) (cd : Codec) (now : Nat) (putOk : Bool)
    (identity : String) (resp : Response) (body : Bytes) :
    Response × List SaveEffect :=
  let compressMinLength :=
    if resp.CompressMinLength = 0 then (CompressMinLength : Int)
    else resp.CompressMinLength
  if body.length == 0 then
    (resp, [SaveEffect.hitForPass identity HitForPassTTL])
  else if (body.length : Int) < compressMinLength then
    doSave jc now putOk identity resp
  else
    doSave jc now putOk identity (saveCompress cd resp body)

/-- save mirrors the dispatcher store procedure: 204 or non-compressible
records are persisted as-is; otherwise the raw bytes are recovered from
whichever buffer is populated (persisting as-is when decoding fails) and
handed to saveBody. -/
def save (jc : JsonCodec) (cd : Codec) (now : Nat) (putOk : Bool)
    (identity : String) (resp : Response) (compressible : Bool) :
    Response × List SaveEffect :=
  if resp.StatusCode == 204 || !compressible then
    doSave jc now putOk identity resp
  else if resp.Body.length == 0 && resp.GzipBody.length != 0 then
    match cd.gunzip resp.GzipBody with
    | .error _ => doSave jc now putOk identity resp
    | .ok b => saveBody jc cd now putOk identity resp b
  else if resp.Body.length == 0 && resp.BrBody.length != 0 then
    match cd.brDecode resp.BrBody with
    | .error _ => doSave jc now putOk identity resp
    | .ok b => saveBody jc cd now putOk identity resp b
  else saveBody jc cd now putOk identity resp resp.Body

/-- r5 is a 204 record with TTL 10, as produced by an origin response with
no content. -/
def r5 : Response :=
  { CreatedAt := 1, StatusCode := 204, TTL := 10, Header := [],
    Body := [], GzipBody := [], BrBody := [],
    CompressLevel := 0, CompressMinLength := 0 }

/-- Match mirrors the source director matcher, parameterized by the
regexp engine rm standing for Go regexp.MustCompile(pattern).Match(host)
(an external library): when neither hosts nor prefixs are configured every
request matches; a configured host list must produce a regexp match and a
configured prefix list a literal uri prefix match, both filters passing
when both are present. -/
def Match (rm : String → String → Bool) (hosts prefixs : List String)
    (host uri : String) : Bool :=
  if hosts.isEmpty && prefixs.isEmpty then true
  else
    let hostMatch := hosts.any fun p => rm p host
    if !hosts.isEmpty && !hostMatch then false
    else if !prefixs.isEmpty then prefixs.any fun p => goHasPrefix uri p
    else hostMatch

/-- regexpMatchLiteral. Modelled from the documented Go regexp semantics
for a pattern containing no regexp metacharacters: Regexp.Match reports
whether the input contains any match of the pattern, i.e. substring
containment — the match is not anchored to the whole input. -/
def regexpMatchLiteral (pattern s : String) : Bool :=
  goContains s pattern

/-- shouldClear is the sweeper condition of the source: ttl not zero and
`now - createdAt > uint32(ttl) + uint32(delay)` in uint32 arithmetic. -/
def shouldClear (now d : Nat) (rs : RequestStatus) : Bool :=
  rs.ttl != 0 &&
    decide ((rs.ttl % 2 ^ 32 + d % 2 ^ 32) % 2 ^ 32 < u32sub now rs.createdAt)

/-- ClearExpired mirrors the source sweeper: a negative delay defaults to
60, every entry meeting the expiry-plus-delay condition is removed from
the status map and its persisted record deleted from the store. -/
def Client.ClearExpired (c : Client) (now : Nat) (delay : Int) : Client :=
  let d : Nat := if delay < 0 then 60 else delay.toNat
  { c with
      rsMap := c.rsMap.filter fun e => !shouldClear now d e.2,
      db := (c.rsMap.filter fun e => shouldClear now d e.2).foldl
        (fun db e => fun k => if k == e.1 then none else db k) c.db }

/-- cw is a concrete status table with one expired-beyond-delay entry
("a", ttl 5, created at 10) and one non-expiring entry ("b", ttl 0). -/
def cw : Client :=
  ⟨[("a", ⟨10, 5, Cacheable, []⟩), ("b", ⟨10, 0, Cacheable, []⟩)], 0,
    fun k => if k == "a" then some [1] else if k == "b" then some [2] else none⟩

/-- lookupRs finds exactly the entries of the list. -/
theorem lookupRs_mem {m : List (String × RequestStatus)} {k : String}
    {rs : RequestStatus} (h : lookupRs m k = some rs) : (k, rs) ∈ m := by
  induction m with
  | nil => simp [lookupRs] at h
  | cons e t ih =>
    obtain ⟨k0, v0⟩ := e
    by_cases hk : k0 = k
    · subst hk
      simp [lookupRs] at h
      simp [h]
    · simp [lookupRs, hk] at h
      exact List.mem_cons_of_mem _ (ih h)

/-- lookupRs after setRs on the same key returns the written value. -/
theorem lookupRs_setRs_self (m : List (String × RequestStatus)) (k : String)
    (v : RequestStatus) : lookupRs (setRs m k v) k = some v := by
  induction m with
  | nil => simp [setRs, lookupRs]
  | cons e t ih =>
    obtain ⟨k0, v0⟩ := e
    by_cases hk : k0 = k
    · subst hk
      simp [setRs, lookupRs]
    · simp [setRs, lookupRs, hk, ih]

/-- C1: GetRequestStatus behaves per the coordinator contract. On a missing
or expired entry the caller establishes a fresh Fetching entry with
createdAt set to now and receives Fetching with no channel; on an entry
already in Fetching state the caller receives Waiting together with a
freshly allocated channel appended to the entry's waiter list; otherwise
the stored status is returned with no channel and the state is unchanged. -/
theorem GetRequestStatus_contract (c : Client) (k : String) (now : Nat) :
    ((lookupRs c.rsMap k = none ∨
        (∃ rs, lookupRs c.rsMap k = some rs ∧ isExpired rs now = true)) →
      c.GetRequestStatus k now =
        (Fetching, none,
          { c with rsMap := setRs c.rsMap k ⟨now, 0, Fetching, []⟩ })) ∧
    (∀ rs, lookupRs c.rsMap k = some rs → isExpired rs now = false →
      rs.status = Fetching →
      c.GetRequestStatus k now =
        (Waiting, some c.nextCh,
          { c with
              rsMap := setRs c.rsMap k
                { rs with waitingChans := rs.waitingChans ++ [c.nextCh] },
              nextCh := c.nextCh + 1 })) ∧
    (∀ rs, lookupRs c.rsMap k = some rs → isExpired rs now = false →
      rs.status ≠ Fetching →
      c.GetRequestStatus k now = (rs.status, none, c)) := by
  refine ⟨?_, ?_, ?_⟩
  · rintro (hl | ⟨rs, hl, he⟩)
    · simp [Client.GetRequestStatus, lockAndUpdateRsMap, hl]
    · simp [Client.GetRequestStatus, lockAndUpdateRsMap, hl, he]
  · intro rs hl he hf
    simp [Client.GetRequestStatus, lockAndUpdateRsMap, hl, he, hf]
  · intro rs hl he hf
    simp [Client.GetRequestStatus, lockAndUpdateRsMap, hl, he, hf]

/-- Witness for GetRequestStatus_contract at an empty client: the first
caller for a key becomes the fetcher and installs the Fetching entry. -/
theorem GetRequestStatus_contract_witness :
    Client.GetRequestStatus ⟨[], 0, fun _ => none⟩ "a" 5 =
      (Fetching, none,
        { rsMap := [("a", ⟨5, 0, Fetching, []⟩)], nextCh := 0,
          db := fun _ => none }) := by
  exact (GetRequestStatus_contract ⟨[], 0, fun _ => none⟩ "a" 5).1 (Or.inl rfl)

/-- C2: UpdateRequestStatus is a no-op when the entry was evicted;
otherwise it stores the new status and ttl with createdAt unchanged, sends
the new status to every waiter channel in append order closing each, and
leaves the waiter list empty. -/
theorem UpdateRequestStatus_contract (c : Client) (k : String)
    (st ttl : Nat) :
    (lookupRs c.rsMap k = none → c.UpdateRequestStatus k st ttl = (c, [])) ∧
    (∀ rs, lookupRs c.rsMap k = some rs →
      c.UpdateRequestStatus k st ttl =
        ({ c with rsMap := setRs c.rsMap k ⟨rs.createdAt, ttl, st, []⟩ },
         rs.waitingChans.flatMap fun ch =>
           [ChanEvent.send ch st, ChanEvent.close ch]) ∧
      lookupRs (c.UpdateRequestStatus k st ttl).1.rsMap k =
        some ⟨rs.createdAt, ttl, st, []⟩) := by
  constructor
  · intro hl
    simp [Client.UpdateRequestStatus, hl]
  · intro rs hl
    constructor
    · simp [Client.UpdateRequestStatus, hl]
    · simp [Client.UpdateRequestStatus, hl, lookupRs_setRs_self]

/-- Witness for UpdateRequestStatus_contract: a Fetching entry with two
waiters transitions to Cacheable, both waiters receive the new status in
order and are closed, and the waiter list is cleared. -/
theorem UpdateRequestStatus_contract_witness :
    Client.UpdateRequestStatus
        ⟨[("a", ⟨100, 5, Fetching, [7, 8]⟩)], 9, fun _ => none⟩
        "a" Cacheable 30 =
      ({ rsMap := [("a", ⟨100, 30, Cacheable, []⟩)], nextCh := 9,
         db := fun _ => none },
       [ChanEvent.send 7 Cacheable, ChanEvent.close 7,
        ChanEvent.send 8 Cacheable, ChanEvent.close 8]) := by
  exact ((UpdateRequestStatus_contract
    ⟨[("a", ⟨100, 5, Fetching, [7, 8]⟩)], 9, fun _ => none⟩
    "a" Cacheable 30).2 ⟨100, 5, Fetching, [7, 8]⟩ rfl).1

/-- C9: over any status table that never stores the transient Waiting
status (the coordinator only ever stores Fetching, HitForPass and
Cacheable), the channel returned by GetRequestStatus is non-nil exactly
when the returned status is Waiting. -/
theorem GetRequestStatus_channel_iff (c : Client) (k : String) (now : Nat)
    (h : ∀ e ∈ c.rsMap, e.2.status ≠ Waiting) :
    (c.GetRequestStatus k now).2.1 ≠ none ↔
      (c.GetRequestStatus k now).1 = Waiting := by
  cases hl : lookupRs c.rsMap k with
  | none =>
    simp [Client.GetRequestStatus, lockAndUpdateRsMap, hl, Fetching, Waiting]
  | some rs =>
    have hns : rs.status ≠ Waiting := h _ (lookupRs_mem hl)
    by_cases he : isExpired rs now
    · simp [Client.GetRequestStatus, lockAndUpdateRsMap, hl, he,
        Fetching, Waiting]
    · by_cases hf : rs.status == Fetching
      · simp [Client.GetRequestStatus, lockAndUpdateRsMap, hl, he, hf]
      · simp [Client.GetRequestStatus, lockAndUpdateRsMap, hl, he, hf, hns]

/-- Witness for GetRequestStatus_channel_iff on a table holding a fresh
Cacheable entry: the status returned is Cacheable and no channel is
handed out. -/
theorem GetRequestStatus_channel_iff_witness :
    ((Client.GetRequestStatus
        ⟨[("a", ⟨100, 0, Cacheable, []⟩)], 0, fun _ => none⟩ "a" 101).2.1 ≠ none ↔
      (Client.GetRequestStatus
        ⟨[("a", ⟨100, 0, Cacheable, []⟩)], 0, fun _ => none⟩ "a" 101).1 = Waiting) := by
  exact GetRequestStatus_channel_iff _ "a" 101 (by decide)

/-- C10: when the store holds no value for the key, or a nil or
zero-length value, GetResponse reports a nil response and a nil error (a
miss, not an error). -/
theorem GetResponse_miss (c : Client) (jc : JsonCodec) (key : String)
    (h : c.db key = none ∨ c.db key = some []) :
    c.GetResponse jc key = .ok none := by
  rcases h with h | h <;> simp [Client.GetResponse, h]

/-- Witness for GetResponse_miss on an empty store. -/
theorem GetResponse_miss_witness :
    Client.GetResponse ⟨[], 0, fun _ => none⟩ jc0 "k" = .ok none := by
  exact GetResponse_miss ⟨[], 0, fun _ => none⟩ jc0 "k" (Or.inl rfl)

/-- Taking the length of the left part of an append yields that part. -/
theorem take_len_append (a b : Bytes) : (a ++ b).take a.length = a := by
  induction a with
  | nil => simp
  | cons x t ih => simp [ih]

/-- Dropping at least the left part of an append drops into the right. -/
theorem drop_append_ge (a b : Bytes) (off : Nat) (h : a.length ≤ off) :
    (a ++ b).drop off = b.drop (off - a.length) := by
  induction a generalizing off with
  | nil => simp
  | cons x t ih =>
    cases off with
    | zero => simp at h
    | succ n =>
      simp only [List.cons_append, List.drop_succ_cons, List.length_cons]
      rw [ih n (by simpa using h)]
      simp [Nat.succ_sub_succ]

/-- Dropping in two stages equals dropping the sum. -/
theorem drop_add_split (l : Bytes) (m n : Nat) :
    l.drop (m + n) = (l.drop m).drop n := by
  induction l generalizing m with
  | nil => simp
  | cons x t ih =>
    cases m with
    | zero => simp
    | succ k =>
      simp only [Nat.succ_add, List.drop_succ_cons]
      exact ih k

/-- Slicing the front of an append at its own length yields it. -/
theorem sliceD_prefix (a b : Bytes) (len : Nat) (h : a.length = len) :
    sliceD (a ++ b) 0 len = a := by
  subst h
  simp [sliceD, take_len_append]

/-- Slicing past the left part of an append slices the right part. -/
theorem sliceD_shift (a b : Bytes) (off len : Nat) (h : a.length ≤ off) :
    sliceD (a ++ b) off len = sliceD b (off - a.length) len := by
  simp [sliceD, drop_append_ge a b off h]

/-- Slicing at a left-length-plus-offset position skips the left part. -/
theorem sliceD_skip (a b : Bytes) (off len : Nat) :
    sliceD (a ++ b) (a.length + off) len = sliceD b off len := by
  rw [sliceD_shift a b _ len (Nat.le_add_right _ _), Nat.add_sub_cancel_left]

/-- Slicing the middle segment of a three-part append yields it. -/
theorem sliceD_between (a b rest : Bytes) (len : Nat) (h : b.length = len) :
    sliceD (a ++ (b ++ rest)) a.length len = b := by
  rw [sliceD_shift _ _ _ _ (Nat.le_refl _), Nat.sub_self]
  exact sliceD_prefix _ _ _ h

/-- Slicing the trailing segment of an append yields it. -/
theorem sliceD_last (a b : Bytes) (len : Nat) (h : b.length = len) :
    sliceD (a ++ b) a.length len = b := by
  rw [sliceD_shift _ _ _ _ (Nat.le_refl _), Nat.sub_self]
  subst h
  simp [sliceD]

/-- Little-endian uint32 decoding inverts encoding below 2^32. -/
theorem bytesToUint32_uint32ToBytes (v : Nat) (h : v < 2 ^ 32) :
    bytesToUint32 (uint32ToBytes v) = v := by
  simp only [bytesToUint32, uint32ToBytes, List.getD_cons_zero,
    List.getD_cons_succ]
  omega

/-- Little-endian uint16 decoding inverts encoding below 2^16. -/
theorem bytesToUint16_uint16ToBytes (v : Nat) (h : v < 2 ^ 16) :
    bytesToUint16 (uint16ToBytes v) = v := by
  simp only [bytesToUint16, uint16ToBytes, List.getD_cons_zero,
    List.getD_cons_succ]
  omega

/-- Parsing an encoded response recovers every persisted field; the two
in-memory-only compression settings are not serialized and parse as 0. -/
theorem decode_encode (jc : JsonCodec) (now : Nat) (r : Response)
    (hca0 : r.CreatedAt ≠ 0) (hca : r.CreatedAt < 2 ^ 32)
    (hsc : r.StatusCode < 2 ^ 16) (httl : r.TTL < 2 ^ 16)
    (hhdr : jc.unmarshal (jc.marshal r.Header) = .ok r.Header)
    (hhl : (jc.marshal r.Header).length < 2 ^ 32)
    (hbl : r.Body.length < 2 ^ 32) (hgl : r.GzipBody.length < 2 ^ 32)
    (hrl : r.BrBody.length < 2 ^ 32) :
    decodeResponseData jc (encodeResponse jc now r) =
      .ok { r with CompressLevel := 0, CompressMinLength := 0 } := by
  have hca0b : (r.CreatedAt == 0) = false := by simp [hca0]
  set H := jc.marshal r.Header with hH
  set data := encodeResponse jc now r with hdataDef
  have hdataeq : data = uint32ToBytes r.CreatedAt ++
      (uint16ToBytes r.StatusCode ++ (uint16ToBytes r.TTL ++
      (uint32ToBytes H.length ++ (uint32ToBytes r.Body.length ++
      (uint32ToBytes r.GzipBody.length ++ (uint32ToBytes r.BrBody.length ++
      (H ++ (r.Body ++ (r.GzipBody ++ r.BrBody))))))))) := by
    rw [hdataDef]
    simp only [encodeResponse, hca0b, Bool.false_eq_true, if_false]
  have e0 : sliceD data 0 4 = uint32ToBytes r.CreatedAt := by
    rw [hdataeq]; rfl
  have e4 : sliceD data 4 2 = uint16ToBytes r.StatusCode := by
    rw [hdataeq]; rfl
  have e6 : sliceD data 6 2 = uint16ToBytes r.TTL := by
    rw [hdataeq]; rfl
  have e8 : sliceD data 8 4 = uint32ToBytes H.length := by
    rw [hdataeq]; rfl
  have e12 : sliceD data 12 4 = uint32ToBytes r.Body.length := by
    rw [hdataeq]; rfl
  have e16 : sliceD data 16 4 = uint32ToBytes r.GzipBody.length := by
    rw [hdataeq]; rfl
  have e20 : sliceD data 20 4 = uint32ToBytes r.BrBody.length := by
    rw [hdataeq]; rfl
  have data24 : data.drop 24 = H ++ (r.Body ++ (r.GzipBody ++ r.BrBody)) := by
    rw [hdataeq]; rfl
  have tailslice : ∀ n len, sliceD data (24 + n) len =
      sliceD (H ++ (r.Body ++ (r.GzipBody ++ r.BrBody))) n len := by
    intro n len
    unfold sliceD
    rw [drop_add_split, data24]
  have h8 : sliceD data 24 H.length = H := by
    have t := tailslice 0 H.length
    rw [Nat.add_zero] at t
    rw [t]
    exact sliceD_prefix _ _ _ rfl
  have h9 : sliceD data (24 + H.length) r.Body.length = r.Body := by
    rw [tailslice H.length r.Body.length]
    exact sliceD_between _ _ _ _ rfl
  have h10 : sliceD data (24 + H.length + r.Body.length)
      r.GzipBody.length = r.GzipBody := by
    rw [show 24 + H.length + r.Body.length =
      24 + (H.length + r.Body.length) by omega]
    rw [tailslice (H.length + r.Body.length) r.GzipBody.length]
    rw [sliceD_skip H _ r.Body.length _]
    exact sliceD_between _ _ _ _ rfl
  have h11 : sliceD data
      (24 + H.length + r.Body.length + r.GzipBody.length)
      r.BrBody.length = r.BrBody := by
    rw [show 24 + H.length + r.Body.length + r.GzipBody.length =
      24 + (H.length + (r.Body.length + r.GzipBody.length)) by omega]
    rw [tailslice (H.length + (r.Body.length + r.GzipBody.length))
      r.BrBody.length]
    rw [sliceD_skip H _ (r.Body.length + r.GzipBody.length) _]
    rw [sliceD_skip r.Body _ r.GzipBody.length _]
    exact sliceD_last _ _ _ rfl
  simp only [decodeResponseData, e0, e4, e6, e8, e12, e16, e20,
    bytesToUint32_uint32ToBytes _ hca, bytesToUint32_uint32ToBytes _ hhl,
    bytesToUint32_uint32ToBytes _ hbl, bytesToUint32_uint32ToBytes _ hgl,
    bytesToUint32_uint32ToBytes _ hrl,
    bytesToUint16_uint16ToBytes _ hsc, bytesToUint16_uint16ToBytes _ httl,
    h8, h9, h10, h11, hhdr]

/-- C4: for a well-formed record (non-zero createdAt, fields within their
wire widths, header JSON round-trips), decoding the persisted form written
by SaveResponse recovers createdAt, statusCode, ttl, header, body,
gzipBody and brBody exactly; the in-memory-only compression settings are
not part of the wire format and parse as 0. -/
theorem SaveResponse_GetResponse_roundtrip (c : Client) (jc : JsonCodec)
    (key : String) (now : Nat) (r : Response)
    (hca0 : r.CreatedAt ≠ 0) (hca : r.CreatedAt < 2 ^ 32)
    (hsc : r.StatusCode < 2 ^ 16) (httl : r.TTL < 2 ^ 16)
    (hhdr : jc.unmarshal (jc.marshal r.Header) = .ok r.Header)
    (hhl : (jc.marshal r.Header).length < 2 ^ 32)
    (hbl : r.Body.length < 2 ^ 32) (hgl : r.GzipBody.length < 2 ^ 32)
    (hrl : r.BrBody.length < 2 ^ 32) :
    (c.SaveResponse jc key now r).GetResponse jc key =
      .ok (some { r with CompressLevel := 0, CompressMinLength := 0 }) := by
  have hd := decode_encode jc now r hca0 hca hsc httl hhdr hhl hbl hgl hrl
  have hca0b : (r.CreatedAt == 0) = false := by simp [hca0]
  have hlen : ((encodeResponse jc now r).length == 0) = false := by
    simp only [encodeResponse, hca0b, Bool.false_eq_true, if_false]
    simp [uint32ToBytes]
  simp only [Client.SaveResponse, Client.GetResponse, beq_self_eq_true,
    if_true, hlen, Bool.false_eq_true, if_false, hd]

/-- Witness for the round-trip law at a concrete record and store. -/
theorem SaveResponse_GetResponse_roundtrip_witness :
    Client.GetResponse
        (Client.SaveResponse ⟨[], 0, fun _ => none⟩ jc0 "k" 50 r4) jc0 "k" =
      .ok (some { r4 with CompressLevel := 0, CompressMinLength := 0 }) := by
  exact SaveResponse_GetResponse_roundtrip ⟨[], 0, fun _ => none⟩ jc0 "k" 50 r4
    (by decide) (by decide) (by decide) (by decide) rfl
    (by decide) (by decide) (by decide) (by decide)

/-- C3 counterexample: for a record whose only populated buffer is brBody
and a request accepting only gzip, GetBody does not cross-decode; it
gzip-encodes the empty raw Body field, so the result is the gzip encoding
of the empty byte string, not of the brotli-decoded content. -/
theorem GetBody_gzip_no_crossdecode_cex :
    GetBody toyCodec r3 "gzip" = ([0], "gzip") ∧
    toyCodec.brDecode r3.BrBody = .ok [5] ∧
    toyCodec.gzipEnc [5] r3.CompressLevel = .ok ([0, 5] : Bytes) ∧
    (([0] : Bytes) ≠ [0, 5]) := by
  refine ⟨rfl, rfl, rfl, by decide⟩

/-- C3 amended: the candidate order is brotli then gzip; a pre-encoded
buffer for an accepted candidate is returned as-is; the brotli candidate
cross-decodes via getRawBody and encodes at compressLevel, falling through
to gzip on any error; the gzip candidate encodes only the raw Body field
(never cross-decoding from brBody). -/
theorem GetBody_negotiation (cd : Codec) (r : Response) (ae : String)
    (h204 : r.StatusCode ≠ 204)
    (hsmall : r.Body.length = 0 ∨
      ¬((r.Body.length : Int) < effCompressMinLength r)) :
    (goContains ae "br" = true → r.BrBody ≠ [] →
      GetBody cd r ae = (r.BrBody, "br")) ∧
    (∀ raw b, goContains ae "br" = true → r.BrBody = [] →
      getRawBody cd r = .ok raw → cd.brEncode raw r.CompressLevel = .ok b →
      GetBody cd r ae = (b, "br")) ∧
    (goContains ae "br" = false → goContains ae "gzip" = true →
      r.GzipBody ≠ [] → GetBody cd r ae = (r.GzipBody, "gzip")) ∧
    (∀ g, goContains ae "br" = false → goContains ae "gzip" = true →
      r.GzipBody = [] → cd.gzipEnc r.Body r.CompressLevel = .ok g →
      GetBody cd r ae = (g, "gzip")) ∧
    (∀ g, goContains ae "br" = true → goContains ae "gzip" = true →
      r.BrBody = [] → r.GzipBody = [] →
      (getRawBody cd r = .error () ∨
        (∃ raw, getRawBody cd r = .ok raw ∧
          cd.brEncode raw r.CompressLevel = .error ())) →
      cd.gzipEnc r.Body r.CompressLevel = .ok g →
      GetBody cd r ae = (g, "gzip")) := by
  have h204b : (r.StatusCode == 204) = false := by simp [h204]
  have hsmallb : (r.Body.length != 0 &&
      decide ((r.Body.length : Int) < effCompressMinLength r)) = false := by
    rcases hsmall with h | h
    · simp [h]
    · simp [h]
  refine ⟨?_, ?_, ?_, ?_, ?_⟩
  · intro hbr hne
    have hl : r.BrBody.length ≠ 0 := fun hz =>
      hne (List.eq_nil_of_length_eq_zero hz)
    simp [GetBody, h204b, hsmallb, getBodyBrStep, hbr, hl]
  · intro raw b hbr hbrE hraw henc
    simp [GetBody, h204b, hsmallb, getBodyBrStep, hbr, hbrE, hraw, henc]
  · intro hbrF hgz hne
    have hl : r.GzipBody.length ≠ 0 := fun hz =>
      hne (List.eq_nil_of_length_eq_zero hz)
    simp [GetBody, h204b, hsmallb, getBodyBrStep, getBodyGzipStep,
      hbrF, hgz, hl]
  · intro g hbrF hgz hgzE henc
    simp [GetBody, h204b, hsmallb, getBodyBrStep, getBodyGzipStep,
      hbrF, hgz, hgzE, henc]
  · intro g hbr hgz hbrE hgzE herr henc
    rcases herr with herr | ⟨raw, hraw, hencErr⟩
    · simp [GetBody, h204b, hsmallb, getBodyBrStep, getBodyGzipStep,
        hbr, hgz, hbrE, hgzE, herr, henc]
    · simp [GetBody, h204b, hsmallb, getBodyBrStep, getBodyGzipStep,
        hbr, hgz, hbrE, hgzE, hraw, hencErr, henc]

/-- Witness for GetBody_negotiation: a gzip-only client is served the
pre-encoded gzip buffer. -/
theorem GetBody_negotiation_witness :
    GetBody toyCodec rGz "gzip" = ([0, 9], "gzip") := by
  exact (GetBody_negotiation toyCodec rGz "gzip" (by decide)
    (Or.inl rfl)).2.2.1 (by decide) (by decide) (by decide)

/-- saveCompress never touches the record's TTL. -/
theorem saveCompress_TTL (cd : Codec) (resp : Response) (body : Bytes) :
    (saveCompress cd resp body).TTL = resp.TTL := by
  simp only [saveCompress]
  repeat' split
  all_goals rfl

/-- saveBody either persists and marks the key Cacheable with the original
record's TTL, or — exactly when the body is empty — marks it hit-for-pass. -/
theorem saveBody_spec (jc : JsonCodec) (cd : Codec) (now : Nat)
    (putOk : Bool) (identity : String) (resp : Response) (body : Bytes) :
    (∃ r2, saveBody jc cd now putOk identity resp body =
        (r2, [SaveEffect.put identity (encodeResponse jc now r2) putOk,
              SaveEffect.cacheable identity resp.TTL])) ∨
    (saveBody jc cd now putOk identity resp body =
        (resp, [SaveEffect.hitForPass identity HitForPassTTL]) ∧
      body = []) := by
  by_cases h0 : (body.length == 0) = true
  · exact Or.inr ⟨by simp [saveBody, h0],
      List.eq_nil_of_length_eq_zero (by simpa using h0)⟩
  · by_cases h1 : (body.length : Int) <
        (if resp.CompressMinLength = 0 then (CompressMinLength : Int)
         else resp.CompressMinLength)
    · exact Or.inl ⟨resp, by simp [saveBody, h0, h1, doSave]⟩
    · refine Or.inl ⟨saveCompress cd resp body, ?_⟩
      simp [saveBody, h0, h1, doSave, saveCompress_TTL]

/-- C5 amended: the dispatcher store procedure marks the key Cacheable
with the record's TTL immediately after the persistence attempt and
regardless of its outcome (the SaveResponse error is discarded);
hit-for-pass with the default TTL happens only when the record is
compressible, not a 204, and its raw body is empty — never in response to
a persistence failure. -/
theorem save_status_update (jc : JsonCodec) (cd : Codec) (now : Nat)
    (putOk : Bool) (identity : String) (resp : Response)
    (compressible : Bool) :
    (∃ r2, save jc cd now putOk identity resp compressible =
        (r2, [SaveEffect.put identity (encodeResponse jc now r2) putOk,
              SaveEffect.cacheable identity resp.TTL])) ∨
    (save jc cd now putOk identity resp compressible =
        (resp, [SaveEffect.hitForPass identity HitForPassTTL]) ∧
      resp.StatusCode ≠ 204 ∧ compressible = true ∧ resp.Body = []) := by
  by_cases hc : (resp.StatusCode == 204 || !compressible) = true
  · exact Or.inl ⟨resp, by simp [save, hc, doSave]⟩
  · have hc2 : resp.StatusCode ≠ 204 ∧ compressible = true := by
      rcases Bool.not_eq_true _ |>.mp hc with h
      constructor
      · intro he
        apply hc
        simp [he]
      · by_contra hcm
        apply hc
        simp [Bool.not_eq_true _ |>.mp (by simpa using hcm)]
    have hcb : (resp.StatusCode == 204 || !compressible) = false :=
      Bool.not_eq_true _ |>.mp hc
    by_cases hg : (resp.Body.length == 0 && resp.GzipBody.length != 0) = true
    · have hBodyNil : resp.Body = [] := by
        have := (Bool.and_eq_true _ _).mp hg
        exact List.eq_nil_of_length_eq_zero (by simpa using this.1)
      cases hgz : cd.gunzip resp.GzipBody with
      | error e =>
        exact Or.inl ⟨resp, by simp [save, hcb, hg, hgz, doSave]⟩
      | ok b =>
        have hsame : save jc cd now putOk identity resp compressible =
            saveBody jc cd now putOk identity resp b := by
          simp [save, hcb, hg, hgz]
        rcases saveBody_spec jc cd now putOk identity resp b with
          ⟨r2, he⟩ | ⟨he, _⟩
        · exact Or.inl ⟨r2, hsame.trans he⟩
        · exact Or.inr ⟨hsame.trans he, hc2.1, hc2.2, hBodyNil⟩
    · by_cases hb : (resp.Body.length == 0 && resp.BrBody.length != 0) = true
      · have hBodyNil : resp.Body = [] := by
          have := (Bool.and_eq_true _ _).mp hb
          exact List.eq_nil_of_length_eq_zero (by simpa using this.1)
        cases hbd : cd.brDecode resp.BrBody with
        | error e =>
          exact Or.inl ⟨resp, by simp [save, hcb, hg, hb, hbd, doSave]⟩
        | ok b =>
          have hsame : save jc cd now putOk identity resp compressible =
              saveBody jc cd now putOk identity resp b := by
            simp [save, hcb, hg, hb, hbd]
          rcases saveBody_spec jc cd now putOk identity resp b with
            ⟨r2, he⟩ | ⟨he, _⟩
          · exact Or.inl ⟨r2, hsame.trans he⟩
          · exact Or.inr ⟨hsame.trans he, hc2.1, hc2.2, hBodyNil⟩
      · have hsame : save jc cd now putOk identity resp compressible =
            saveBody jc cd now putOk identity resp resp.Body := by
          simp [save, hcb, hg, hb]
        rcases saveBody_spec jc cd now putOk identity resp resp.Body with
          ⟨r2, he⟩ | ⟨he, hnil⟩
        · exact Or.inl ⟨r2, hsame.trans he⟩
        · exact Or.inr ⟨hsame.trans he, hc2.1, hc2.2, hnil⟩

/-- C5 counterexample: putOk = false models a failing store put, yet the
store procedure still marks the key Cacheable with the record's TTL and
never issues a hit-for-pass transition; the claimed fallback to
HitForPass on persistence failure does not exist in the code, which
discards the SaveResponse error. -/
theorem save_persist_failure_cex :
    (save jc0 toyCodec 100 false "k" r5 true).2 =
      [SaveEffect.put "k" (encodeResponse jc0 100 r5) false,
       SaveEffect.cacheable "k" 10] ∧
    SaveEffect.hitForPass "k" HitForPassTTL ∉
      (save jc0 toyCodec 100 false "k" r5 true).2 := by
  have he : (save jc0 toyCodec 100 false "k" r5 true).2 =
      [SaveEffect.put "k" (encodeResponse jc0 100 r5) false,
       SaveEffect.cacheable "k" 10] := rfl
  refine ⟨he, ?_⟩
  intro h
  rw [he] at h
  simp at h

/-- C8: a 204 record yields an empty body with empty encoding from
GetBody regardless of the Accept-Encoding value, and the store procedure
persists it as-is — no buffer is touched and no compression is attempted,
whatever the compressible flag. -/
theorem status204_spec (cd : Codec) (jc : JsonCodec) (now : Nat)
    (putOk : Bool) (identity : String) (ae : String) (resp : Response)
    (h : resp.StatusCode = 204) :
    GetBody cd resp ae = ([], "") ∧
    ∀ compressible, save jc cd now putOk identity resp compressible =
      (resp, [SaveEffect.put identity (encodeResponse jc now resp) putOk,
              SaveEffect.cacheable identity resp.TTL]) := by
  constructor
  · simp [GetBody, h]
  · intro compressible
    simp [save, h, doSave]

/-- Witness for status204_spec at a concrete 204 record. -/
theorem status204_spec_witness :
    GetBody toyCodec r5 "gzip, br" = ([], "") ∧
    save jc0 toyCodec 3 true "k" r5 false =
      (r5, [SaveEffect.put "k" (encodeResponse jc0 3 r5) true,
            SaveEffect.cacheable "k" 10]) := by
  have h := status204_spec toyCodec jc0 3 true "k" "gzip, br" r5 rfl
  exact ⟨h.1, h.2 false⟩

/-- C7 counterexample: with the single metacharacter-free host pattern
abc and no prefixes, a request whose Host header is xabcy matches the
director even though no pattern fully matches the header (a full regex
match of a literal pattern is string equality, and abc differs from
xabcy): host matching is an unanchored regexp search, not a full match. -/
theorem Match_fullmatch_cex :
    Match regexpMatchLiteral ["abc"] [] "xabcy" "/" = true ∧
    "abc" ≠ "xabcy" := by
  exact ⟨rfl, by decide⟩

/-- C7 amended: Match returns true exactly when every configured filter
passes — with no host and no prefix configured everything matches; a
configured host list needs some pattern the regexp engine accepts against
the Host header (an unanchored search in Go); a configured prefix list
needs some literal prefix of the request URI. -/
theorem Match_characterization (rm : String → String → Bool)
    (hosts prefixs : List String) (host uri : String) :
    Match rm hosts prefixs host uri = true ↔
      ((hosts = [] ∨ ∃ p ∈ hosts, rm p host = true) ∧
       (prefixs = [] ∨ ∃ q ∈ prefixs, goHasPrefix uri q = true)) := by
  by_cases hh : hosts = []
  · by_cases hp : prefixs = [] <;>
      simp [Match, hh, hp, ← List.any_eq_true]
  · by_cases hm : (hosts.any fun p => rm p host) = true
    · by_cases hp : prefixs = [] <;>
        simp [Match, hh, hp, hm, ← List.any_eq_true]
    · have hm2 : (hosts.any fun p => rm p host) = false := by
        simpa using hm
      by_cases hp : prefixs = [] <;>
        simp [Match, hh, hp, hm2, ← List.any_eq_true]

/-- Folding the per-entry store deletions equals a single conditional
lookup on whether some selected entry carries the key. -/
theorem clearDb_spec (l : List (String × RequestStatus))
    (db : String → Option Bytes) (p : String × RequestStatus → Bool)
    (k : String) :
    ((l.filter p).foldl
        (fun db e => fun k2 => if k2 == e.1 then none else db k2) db) k =
      if l.any (fun e => p e && k == e.1) then none else db k := by
  induction l generalizing db with
  | nil => simp
  | cons e t ih =>
    by_cases hp : p e = true
    · simp only [List.filter_cons, hp, if_true, List.foldl_cons,
        List.any_cons]
      rw [ih]
      by_cases hk : (k == e.1) = true
      · rw [hk]
        simp only [Bool.true_and, Bool.true_or, eq_self_iff_true, if_true,
          ite_self]
      · have hk2 : (k == e.1) = false := by simpa using hk
        rw [hk2]
        simp only [Bool.true_and, Bool.false_or, Bool.false_eq_true,
          if_false]
    · have hp2 : p e = false := by simpa using hp
      simp only [List.filter_cons, hp2, Bool.false_eq_true, if_false,
        List.any_cons]
      rw [ih]
      simp only [Bool.false_and, Bool.false_or]

/-- Wraparound uint32 subtraction coincides with plain subtraction when
the subtrahend is bounded by the minuend and both fit in 32 bits. -/
theorem u32sub_eq (now ca : Nat) (h1 : ca ≤ now) (h2 : now < 2 ^ 32) :
    u32sub now ca = now - ca := by
  unfold u32sub
  omega

/-- Under realistic bounds the sweeper condition is the plain arithmetic
condition of the specification. -/
theorem shouldClear_eq (now d : Nat) (rs : RequestStatus)
    (h1 : rs.createdAt ≤ now) (h2 : now < 2 ^ 32) (h3 : rs.ttl < 2 ^ 16)
    (h4 : d ≤ 2 ^ 31) :
    shouldClear now d rs =
      decide (rs.ttl ≠ 0 ∧ rs.ttl + d < now - rs.createdAt) := by
  unfold shouldClear
  rw [u32sub_eq now rs.createdAt h1 h2]
  have hs : (rs.ttl % 2 ^ 32 + d % 2 ^ 32) % 2 ^ 32 = rs.ttl + d := by
    omega
  rw [hs]
  by_cases ht : rs.ttl = 0
  · simp [ht]
  · simp [ht]

/-- C6: ClearExpired removes exactly the entries whose ttl is non-zero
and whose age exceeds ttl plus delay — both the status entry and the
persisted record — leaving every other entry and record untouched; a
negative (absent/invalid) delay is replaced by the default 60 seconds. -/
theorem ClearExpired_spec (c : Client) (now : Nat) (delay : Int)
    (hnow : now < 2 ^ 32)
    (hwf : ∀ e ∈ c.rsMap,
      e.2.createdAt ≤ now ∧ e.2.ttl < 2 ^ 16)
    (hdel : delay ≤ 2 ^ 31) :
    (∀ k rs, (k, rs) ∈ (c.ClearExpired now delay).rsMap ↔
      ((k, rs) ∈ c.rsMap ∧
        ¬(rs.ttl ≠ 0 ∧
          rs.ttl + (if delay < 0 then 60 else delay.toNat) <
            now - rs.createdAt))) ∧
    (∀ k rs, (k, rs) ∈ c.rsMap →
      rs.ttl ≠ 0 →
      rs.ttl + (if delay < 0 then 60 else delay.toNat) < now - rs.createdAt →
      (c.ClearExpired now delay).db k = none) ∧
    (∀ k,
      (¬∃ rs, (k, rs) ∈ c.rsMap ∧ rs.ttl ≠ 0 ∧
        rs.ttl + (if delay < 0 then 60 else delay.toNat) <
          now - rs.createdAt) →
      (c.ClearExpired now delay).db k = c.db k) ∧
    (delay < 0 → c.ClearExpired now delay = c.ClearExpired now 60) := by
  set d : Nat := if delay < 0 then 60 else delay.toNat with hd
  have hdbound : d ≤ 2 ^ 31 := by
    rw [hd]
    split
    · omega
    · omega
  have hsc : ∀ e ∈ c.rsMap, shouldClear now d e.2 =
      decide (e.2.ttl ≠ 0 ∧ e.2.ttl + d < now - e.2.createdAt) := by
    intro e he
    obtain ⟨hw1, hw2⟩ := hwf e he
    exact shouldClear_eq now d e.2 hw1 hnow hw2 hdbound
  refine ⟨?_, ?_, ?_, ?_⟩
  · intro k rs
    constructor
    · intro hm
      have hm2 := List.mem_filter.mp hm
      have hcnd := hsc _ hm2.1
      refine ⟨hm2.1, ?_⟩
      have h3 : shouldClear now d rs = false := by simpa using hm2.2
      rw [hcnd] at h3
      exact of_decide_eq_false h3
    · rintro ⟨hm, hcond⟩
      apply List.mem_filter.mpr
      refine ⟨hm, ?_⟩
      have h3 : shouldClear now d rs = false := by
        rw [hsc _ hm]
        exact decide_eq_false hcond
      simp [h3]
  · intro k rs hm httl hage
    show ((c.rsMap.filter fun e => shouldClear now d e.2).foldl
      (fun db e => fun k2 => if k2 == e.1 then none else db k2) c.db) k = none
    rw [clearDb_spec]
    have : c.rsMap.any (fun e => shouldClear now d e.2 && k == e.1) = true := by
      apply List.any_eq_true.mpr
      refine ⟨(k, rs), hm, ?_⟩
      rw [hsc _ hm]
      simp [httl, hage]
    simp [this]
  · intro k hnone
    show ((c.rsMap.filter fun e => shouldClear now d e.2).foldl
      (fun db e => fun k2 => if k2 == e.1 then none else db k2) c.db) k = c.db k
    rw [clearDb_spec]
    cases hany : c.rsMap.any (fun e => shouldClear now d e.2 && k == e.1) with
    | true =>
      exfalso
      obtain ⟨e, he, hpe⟩ := List.any_eq_true.mp hany
      have hsp := (Bool.and_eq_true _ _).mp hpe
      have hkeq : k = e.1 := by simpa using hsp.2
      apply hnone
      refine ⟨e.2, ?_, ?_⟩
      · rw [hkeq]
        exact he
      · have := hsp.1
        rw [hsc _ he] at this
        simpa using this
    | false => simp
  · intro hneg
    have h1 : d = 60 := by
      rw [hd, if_pos hneg]
    have h2 : (if (60 : Int) < 0 then (60 : Nat) else (60 : Int).toNat) = 60 := by
      decide
    show Client.ClearExpired c now delay = Client.ClearExpired c now 60
    unfold Client.ClearExpired
    rw [← hd, h1, h2]

/-- Witness for ClearExpired_spec: at time 100 with delay 20 the sweeper
deletes the record of the expired key and leaves the other record alone. -/
theorem ClearExpired_spec_witness :
    (cw.ClearExpired 100 20).db "a" = none ∧
    (cw.ClearExpired 100 20).db "b" = cw.db "b" := by
  have h := ClearExpired_spec cw 100 20 (by decide) (by decide) (by decide)
  constructor
  · exact h.2.1 "a" ⟨10, 5, Cacheable, []⟩ (by decide) (by decide) (by decide)
  · apply h.2.2.1 "b"
    rintro ⟨rs, hm, httl, hage⟩
    have hm2 : rs = ⟨10, 0, Cacheable, []⟩ := by
      simpa [cw] using hm
    rw [hm2] at httl
    exact httl rfl
